import Mathlib

/-!
Shallow embedding of `migrate.js` (a minimalist MongoDB migration runner)
and proofs about its migration-ordering, state-transition and chunked
collection-rewrite logic.

Modelling conventions:
* JavaScript numbers that are always produced by `parseInt` on digit
  strings are `Nat`; ledger values and comparison operands are `Int`.
* `null` / `undefined` option values are the explicit `JsOptNum` type,
  since `_.get`'s default only fires on `undefined`, and JS `>` coerces
  `null` to `0` (ToNumber) while `undefined` yields `NaN` (all
  comparisons false).
* Thrown JS errors are `Except`/`Option JsError`; `JsError.typeError`
  is a runtime `TypeError` (e.g. indexing into `null`), `JsError.error`
  a value built with `Error(msg)`.
* A migration's `up`/`down` transform is abstracted to a success flag
  (`upOk`/`downOk`): the runner only invokes it and observes success or
  a thrown error.  Invocations, ledger writes, console output and
  `db.close()` are recorded in an event trace `List Ev`, in the order
  the side effects happen in the source.
* The `__migrations` marker document is `Option Int`: `none` when the
  marker is absent (`findOne` returns `null`), `some v` when it holds
  `migId = v`.
-/

namespace MigrateJs

/-- A thrown JavaScript error. -/
inductive JsError where
  | typeError (msg : String)
  | error (msg : String)
deriving Repr, DecidableEq

/-- A JS numeric option value: `undefined`, `null`, or a number. -/
inductive JsOptNum where
  | undef
  | null
  | num (v : Int)
deriving Repr, DecidableEq

/-- `_.get(obj, key, dflt)`: the default replaces only `undefined`,
never `null`. -/
def lodashGet (v : JsOptNum) (dflt : Int) : JsOptNum :=
  match v with
  | JsOptNum.undef => JsOptNum.num dflt
  | x => x

/-- JS `a > b` for a number `a` and a `JsOptNum` b: `ToNumber null = 0`,
while `undefined` becomes `NaN` and every comparison with `NaN` is
false. -/
def jsGtNum (a : Int) (b : JsOptNum) : Bool :=
  match b with
  | JsOptNum.undef => false
  | JsOptNum.null => decide (0 < a)
  | JsOptNum.num v => decide (v < a)

/-- One unit enumerated by `require-dir` from the `migrations` folder:
its key (file name without extension) and whether the module exports
callable `up` / `down`; `upOk`/`downOk` abstract whether the transform
succeeds when invoked. -/
structure MigrationDef where
  name : String
  hasUp : Bool
  hasDown : Bool
  upOk : Bool
  downOk : Bool
deriving Repr, DecidableEq

/-- A loaded migration record `{name, id, up, down}` (transforms
abstracted to success flags). -/
structure Migration where
  name : String
  id : Nat
  upOk : Bool
  downOk : Bool
deriving Repr, DecidableEq

/-- `parseInt` on a non-empty all-digit string. -/
def parseDigits (ds : List Char) : Nat :=
  ds.foldl (fun acc c => acc * 10 + (c.toNat - 48)) 0

/-- `extractMigId` from `migrate.js`:
`name.match(/^([\d]+)/)[1]` takes the leading digit run; when the name
has no leading digit, `match` returns `null` and indexing it throws a
`TypeError` (so the subsequent `if (!id) throw Error(...)` guard is
unreachable: a successful match always captures a non-empty digit
string). -/
def extractMigId (name : String) : Except JsError Nat :=
  let m := name.data.takeWhile Char.isDigit
  if m.isEmpty then
    Except.error (JsError.typeError "Cannot read property 1 of null")
  else if m.isEmpty then
    Except.error (JsError.error ("missing id in " ++ name))
  else
    Except.ok (parseDigits m)

/-- The mapping pass of `loadMigrations`: walk the enumerated units in
order, extract each id, reject duplicates (the growing `idSet`) and
units lacking callable `up`/`down`, and build the migration records. -/
def processUnits : List MigrationDef → List Nat → Except JsError (List Migration)
  | [], _ => Except.ok []
  | u :: rest, idSet =>
    match extractMigId u.name with
    | Except.error e => Except.error e
    | Except.ok id =>
      if id ∈ idSet then
        Except.error (JsError.error ("duplicate id " ++ toString id ++ " while processing " ++ u.name))
      else if !u.hasUp then
        Except.error (JsError.error ("missing up function in " ++ u.name))
      else if !u.hasDown then
        Except.error (JsError.error ("missing down function in " ++ u.name))
      else
        match processUnits rest (id :: idSet) with
        | Except.error e => Except.error e
        | Except.ok ms =>
          Except.ok ({ name := u.name, id := id, upOk := u.upOk, downOk := u.downOk } :: ms)

/-- The sort key of `_.sortBy('id')`. -/
def migLE (a b : Migration) : Prop := a.id ≤ b.id

instance : DecidableRel migLE := fun a b => inferInstanceAs (Decidable (a.id ≤ b.id))

instance : IsTotal Migration migLE := ⟨fun a b => Nat.le_total a.id b.id⟩

instance : IsTrans Migration migLE := ⟨fun _ _ _ h1 h2 => Nat.le_trans h1 h2⟩

/-- `loadMigrations`: map/validate every enumerated unit, then
`_.sortBy('id')` (a stable sort, modelled by insertion sort). -/
def loadMigrations (units : List MigrationDef) : Except JsError (List Migration) :=
  match processUnits units [] with
  | Except.error e => Except.error e
  | Except.ok ms => Except.ok (List.insertionSort migLE ms)

/-- `DEFAULT_OPTS` fields that influence modelled behaviour (`host`,
`port`, `database` only form the connection URL and are absorbed into
the abstract connection). -/
structure Opts where
  func : String
  version : JsOptNum
  dryRun : Bool
deriving Repr, DecidableEq

def DEFAULT_OPTS : Opts :=
  { func := "up", version := JsOptNum.null, dryRun := false }

/-- The caller-supplied options object: `none` means the key is absent,
`some v` that it is present with value `v` (possibly `undefined`). -/
structure OptsArg where
  func : Option String := none
  version : Option JsOptNum := none
  dryRun : Option Bool := none
deriving Repr, DecidableEq

/-- `_.assign({}, DEFAULT_OPTS, opts)`: a present key (even one holding
`undefined` or `null`) overrides the default. -/
def assignOpts (o : OptsArg) : Opts :=
  { func := o.func.getD DEFAULT_OPTS.func
  , version := o.version.getD DEFAULT_OPTS.version
  , dryRun := o.dryRun.getD DEFAULT_OPTS.dryRun }

/-- Observable side effects of a run, in program order. -/
inductive Ev where
  | log (msg : String)
  | applyUp (id : Nat)
  | applyDown (id : Nat)
  | writeLedger (v : Int)
  | close
deriving Repr, DecidableEq

/-- Result of a run: final marker value, event trace, and the
propagated error if one was thrown. -/
structure RunResult where
  ledger : Option Int
  trace : List Ev
  err : Option JsError
deriving Repr, DecidableEq

/-- The `for (const m of pendingMigrations)` loop (migrate.js lines
133–152): per migration, log, invoke the direction's transform, and on
success upsert the marker (`migId = m.id` going up, `m.id - 1` going
down); a thrown transform error stops the loop and propagates. -/
def runPending (isUp : Bool) : List Migration → Option Int → (Option Int × List Ev × Option JsError)
  | [], led => (led, [], none)
  | m :: rest, led =>
    if isUp then
      if m.upOk then
        let res := runPending isUp rest (some (m.id : Int))
        (res.1,
         Ev.log (" - applying " ++ m.name ++ "...") :: Ev.applyUp m.id ::
           Ev.writeLedger (m.id : Int) :: Ev.log ("   done " ++ m.name ++ "!") :: res.2.1,
         res.2.2)
      else
        (led, [Ev.log (" - applying " ++ m.name ++ "..."), Ev.applyUp m.id],
         some (JsError.error ("transform error in " ++ m.name)))
    else
      if m.downOk then
        let res := runPending isUp rest (some ((m.id : Int) - 1))
        (res.1,
         Ev.log (" - reverting " ++ m.name ++ "...") :: Ev.applyDown m.id ::
           Ev.writeLedger ((m.id : Int) - 1) :: Ev.log ("   done " ++ m.name ++ "!") :: res.2.1,
         res.2.2)
      else
        (led, [Ev.log (" - reverting " ++ m.name ++ "..."), Ev.applyDown m.id],
         some (JsError.error ("transform error in " ++ m.name)))

/-- The pending-set computation of `main` (lines 82–94): going up,
migrations with id above the current version, in load order (ascending);
going down, ids above the requested target and at most the current
version, then `_.reverse`d in place. -/
def pendingOf (func : String) (version : JsOptNum) (migId : Int) (allMigrations : List Migration) : List Migration :=
  if func = "up" then
    allMigrations.filter (fun m => decide (migId < (m.id : Int)))
  else
    let requestedMigId := lodashGet version migId
    (allMigrations.filter
      (fun m => jsGtNum (m.id : Int) requestedMigId && decide ((m.id : Int) ≤ migId))).reverse

/-- `main` after the pending set is known (lines 100–155): dry-run
early return (close), empty-pending early return (close), otherwise the
migration loop followed by close on success; a propagated error skips
the close. -/
def afterPending (o : Opts) (pending : List Migration) (ledger0 : Option Int) (tr0 : List Ev) : RunResult :=
  if o.dryRun then
    { ledger := ledger0
    , trace := tr0 ++ [Ev.log "dry run mode : the following migrations would be applied:"] ++
        pending.map (fun m => Ev.log (" - " ++ m.name)) ++ [Ev.close]
    , err := none }
  else if pending.isEmpty then
    { ledger := ledger0
    , trace := tr0 ++ [Ev.log "already up to date : no migration to apply!", Ev.close]
    , err := none }
  else
    let tr1 := tr0 ++ [Ev.log "applying the following migrations:"]
    match runPending (o.func = "up") pending ledger0 with
    | (led, tr2, none) => { ledger := led, trace := tr1 ++ tr2 ++ [Ev.close], err := none }
    | (led, tr2, some e) => { ledger := led, trace := tr1 ++ tr2, err := some e }

/-- `main(opts)`: merge option defaults, connect, load the migrations
(a load error propagates with the connection still open), read the
marker (`_.defaults(migrationInfo, {migId: 0})`), dispatch on `func`
(an unrecognized value throws before any close), compute the pending
set and run it. -/
def main (opts : OptsArg) (units : List MigrationDef) (ledger0 : Option Int) : RunResult :=
  let o := assignOpts opts
  match loadMigrations units with
  | Except.error e => { ledger := ledger0, trace := [], err := some e }
  | Except.ok allMigrations =>
    let migId : Int := ledger0.getD 0
    let tr0 := [Ev.log ("current database version is " ++ toString migId)]
    if o.func = "up" then
      afterPending o (pendingOf "up" o.version migId allMigrations) ledger0 tr0
    else if o.func = "down" then
      afterPending o (pendingOf "down" o.version migId allMigrations) ledger0 tr0
    else
      { ledger := ledger0, trace := tr0
      , err := some (JsError.error ("Invalid func " ++ o.func)) }

/-! Trace observers. -/

def isClose : Ev → Bool
  | Ev.close => true
  | _ => false

def isApplyEv : Ev → Bool
  | Ev.applyUp _ => true
  | Ev.applyDown _ => true
  | _ => false

/-- Number of `db.close()` calls recorded in a trace. -/
def closeCount (tr : List Ev) : Nat := (tr.filter isClose).length

/-- The transform invocations of a trace, in order. -/
def applyEvents (tr : List Ev) : List Ev := tr.filter isApplyEv

/-- The marker values written by a trace, in order. -/
def ledgerWrites : List Ev → List Int
  | [] => []
  | Ev.writeLedger v :: r => v :: ledgerWrites r
  | _ :: r => ledgerWrites r

def isApplyOrWrite : Ev → Bool
  | Ev.applyUp _ => true
  | Ev.applyDown _ => true
  | Ev.writeLedger _ => true
  | _ => false

/-- Transform invocations and ledger writes of a trace, interleaved in
program order. -/
def applyWriteEvents (tr : List Ev) : List Ev := tr.filter isApplyOrWrite

/-- The marker value the runner writes after migration `m` succeeds:
`m.id` going up, `m.id - 1` going down. -/
def stepVal (isUp : Bool) (m : Migration) : Int :=
  if isUp then (m.id : Int) else (m.id : Int) - 1

/-- Whether `m`'s transform for the given direction succeeds when
invoked. -/
def transformOk (isUp : Bool) (m : Migration) : Bool :=
  if isUp then m.upOk else m.downOk

/-- The invocation event of `m`'s transform for the given direction. -/
def applyEv (isUp : Bool) (m : Migration) : Ev :=
  if isUp then Ev.applyUp m.id else Ev.applyDown m.id

/-! ### The batch updater `updateCollection` (migrate.js lines 110–124) -/

/-- A stored document: its `_id` and an abstract payload. -/
structure Doc where
  _id : Int
  payload : Int
deriving Repr, DecidableEq

/-- Observable side effects of one `updateCollection` call. -/
inductive UEv where
  | fetch (size : Nat)
  | applyUpd (d : Doc)
  | writeBack (d : Doc)
deriving Repr, DecidableEq

/-- `col.updateOne({_id: doc._id}, doc)` with no upsert: replace the
document whose `_id` equals the *new* document's `_id`, if any;
otherwise the collection is unchanged. -/
def updateOneReplace : List Doc → Doc → List Doc
  | [], _ => []
  | d :: ds, nd => if d._id = nd._id then nd :: ds else d :: updateOneReplace ds nd

/-- The `while (true)` loop of `updateCollection`: fetch page `idx`
with `skip(idx++ * 1000).limit(1000)` from the *current* collection,
stop on an empty page, otherwise apply the updater to every fetched
document (`Promise.all`), then write each result back in order.  `fuel`
only bounds the recursion; the Boolean result records that the loop
exited through its empty-page test rather than by exhausting fuel. -/
def updateCollectionAux (updater : Doc → Doc) : Nat → Nat → List Doc → (List Doc × List UEv × Bool)
  | 0, _, col => (col, [], false)
  | Nat.succ fuel, idx, col =>
    let docs := (col.drop (idx * 1000)).take 1000
    if docs.isEmpty then
      (col, [UEv.fetch docs.length], true)
    else
      let newDocs := docs.map updater
      let col2 := newDocs.foldl updateOneReplace col
      let res := updateCollectionAux updater fuel (idx + 1) col2
      (res.1, UEv.fetch docs.length :: (docs.map UEv.applyUpd ++ newDocs.map UEv.writeBack ++ res.2.1), res.2.2)

/-- `updateCollection(collection, updater)` on a collection holding
`col`, with fuel ample for the page count. -/
def updateCollection (updater : Doc → Doc) (col : List Doc) : List Doc × List UEv × Bool :=
  updateCollectionAux updater (col.length / 1000 + 2) 0 col

/-- The page sizes a skip/limit scan with page size 1000 fetches from a
collection of `n` documents whose size never changes: full pages of
1000, a final partial page, then the empty page that ends the loop. -/
def fetchSizes1000 : Nat → List Nat
  | 0 => [0]
  | Nat.succ n => min 1000 (Nat.succ n) :: fetchSizes1000 (Nat.succ n - 1000)
decreasing_by omega

/-- The fetch events of an update trace, in order. -/
def fetchEvents : List UEv → List Nat
  | [] => []
  | UEv.fetch s :: r => s :: fetchEvents r
  | _ :: r => fetchEvents r

def isWriteBack : UEv → Bool
  | UEv.writeBack _ => true
  | _ => false

/-- Number of write-backs in an update trace. -/
def writeCount (tr : List UEv) : Nat := (tr.filter isWriteBack).length

/-- Scanner for "within a page, every updater application precedes
every write-back": walking the trace, once a write-back is seen, no
updater application may occur until the next fetch resets the page. -/
def noApplyAfterWrite (seenWrite : Bool) : List UEv → Bool
  | [] => true
  | UEv.fetch _ :: r => noApplyAfterWrite false r
  | UEv.applyUpd _ :: r => !seenWrite && noApplyAfterWrite seenWrite r
  | UEv.writeBack _ :: r => noApplyAfterWrite true r

/-! Concrete fixtures used by scenario conjuncts, counterexamples and
witnesses. -/

/-- Three well-formed migration units with ids 1, 2, 3, all of whose
transforms succeed. -/
def units123 : List MigrationDef :=
  [⟨"1-a", true, true, true, true⟩, ⟨"2-b", true, true, true, true⟩,
   ⟨"3-c", true, true, true, true⟩]

/-- Two well-formed units with ids 2 and 3 (no id-1 migration). -/
def units23 : List MigrationDef :=
  [⟨"2-b", true, true, true, true⟩, ⟨"3-c", true, true, true, true⟩]

/-- A unit whose declared name has no leading digit. -/
def unitNoDigit : MigrationDef := ⟨"add-field", true, true, true, true⟩

/-- Units where the id-2 migration's `up` transform throws. -/
def unitsFail2 : List MigrationDef :=
  [⟨"1-a", true, true, true, true⟩, ⟨"2-b", true, true, false, true⟩,
   ⟨"3-c", true, true, true, true⟩]

/-- An updater that returns a document with a different `_id` than the
one it was given. -/
def updShift : Doc → Doc := fun d => { _id := d._id + 100, payload := d.payload }

/-- The migration list `loadMigrations` produces from `units123`. -/
def migs123 : List Migration :=
  [⟨"1-a", 1, true, true⟩, ⟨"2-b", 2, true, true⟩, ⟨"3-c", 3, true, true⟩]

/-! ### Loader lemmas -/

theorem processUnits_ok_ids (units : List MigrationDef) :
    ∀ (idSet : List Nat) (l : List Migration),
      processUnits units idSet = Except.ok l →
      (∀ m ∈ l, m.id ∉ idSet) ∧ l.Pairwise (fun a b => a.id ≠ b.id) := by
  induction units with
  | nil =>
    intro idSet l h
    simp only [processUnits, Except.ok.injEq] at h
    subst h
    simp
  | cons u rest ih =>
    intro idSet l h
    simp only [processUnits] at h
    split at h
    · exact absurd h (by simp)
    · rename_i id hx
      split at h
      · exact absurd h (by simp)
      · rename_i hid
        split at h
        · exact absurd h (by simp)
        · split at h
          · exact absurd h (by simp)
          · split at h
            · exact absurd h (by simp)
            · rename_i ms hms
              simp only [Except.ok.injEq] at h
              subst h
              obtain ⟨h1, h2⟩ := ih (id :: idSet) ms hms
              refine ⟨?_, ?_⟩
              · intro m hm
                rcases List.mem_cons.mp hm with rfl | hm2
                · simpa using hid
                · have := h1 m hm2
                  simp only [List.mem_cons] at this
                  exact fun hc => this (Or.inr hc)
              · refine List.Pairwise.cons ?_ h2
                intro m hm
                have := h1 m hm
                simp only [List.mem_cons] at this
                intro hc
                exact this (Or.inl hc.symm)

theorem loadMigrations_sortedLE {units : List MigrationDef} {migs : List Migration}
    (h : loadMigrations units = Except.ok migs) : migs.Pairwise migLE := by
  unfold loadMigrations at h
  split at h
  · exact absurd h (by simp)
  · rename_i ms hms
    simp only [Except.ok.injEq] at h
    subst h
    exact List.sorted_insertionSort migLE ms

theorem loadMigrations_ids_ne {units : List MigrationDef} {migs : List Migration}
    (h : loadMigrations units = Except.ok migs) :
    migs.Pairwise (fun a b => a.id ≠ b.id) := by
  unfold loadMigrations at h
  split at h
  · exact absurd h (by simp)
  · rename_i ms hms
    simp only [Except.ok.injEq] at h
    subst h
    have hperm := List.perm_insertionSort migLE ms
    have hne := (processUnits_ok_ids units [] ms hms).2
    exact (hperm.pairwise_iff (fun hab => Ne.symm hab)).mpr hne

/-- The sequence `loadMigrations` returns is strictly ascending by id. -/
theorem loadMigrations_sorted {units : List MigrationDef} {migs : List Migration}
    (h : loadMigrations units = Except.ok migs) :
    migs.Pairwise (fun a b => a.id < b.id) :=
  ((loadMigrations_sortedLE h).and (loadMigrations_ids_ne h)).imp
    (fun hab => Nat.lt_of_le_of_ne hab.1 hab.2)

theorem mem_of_getLast?_eq {α : Type} : ∀ {l : List α} {a : α}, l.getLast? = some a → a ∈ l := by
  intro l
  induction l with
  | nil => intro a h; simp at h
  | cons x rest ih =>
    intro a h
    cases rest with
    | nil => simp_all
    | cons y r2 =>
      rw [List.getLast?_cons_cons] at h
      exact List.mem_cons_of_mem x (ih h)

/-- In a strictly ascending migration list, every id is at most the
last one. -/
theorem le_getLast_of_sorted {l : List Migration}
    (hs : l.Pairwise (fun a b => a.id < b.id)) {m g : Migration}
    (hm : m ∈ l) (hg : l.getLast? = some g) : m.id ≤ g.id := by
  induction l with
  | nil => cases hm
  | cons a rest ih =>
    cases rest with
    | nil =>
      simp only [List.mem_singleton] at hm
      simp only [List.getLast?_singleton, Option.some.injEq] at hg
      subst hm; subst hg; exact Nat.le_refl _
    | cons b r2 =>
      rw [List.getLast?_cons_cons] at hg
      rcases List.mem_cons.mp hm with rfl | hm2
      · have hgmem : g ∈ b :: r2 := mem_of_getLast?_eq hg
        have := (List.pairwise_cons.mp hs).1 g hgmem
        exact Nat.le_of_lt this
      · exact ih (List.Pairwise.of_cons hs) hm2 hg

theorem getLast?_elim_cons {α β : Type} (m : α) (rest : List α) (d : β) (f : α → β) :
    ((m :: rest).getLast?).elim d f = (rest.getLast?).elim (f m) f := by
  cases rest with
  | nil => simp
  | cons b r2 =>
    rw [List.getLast?_cons_cons]
    rw [List.getLast?_eq_getLast_of_ne_nil (l := b :: r2) (by simp)]
    simp

/-! ### Runner loop lemmas -/

/-- The migration loop never closes the connection. -/
theorem closeCount_runPending (isUp : Bool) (p : List Migration) (led : Option Int) :
    closeCount (runPending isUp p led).2.1 = 0 := by
  induction p generalizing led with
  | nil => simp [runPending, closeCount]
  | cons m rest ih =>
    cases isUp with
    | true =>
      cases hm : m.upOk with
      | false => simp [runPending, hm, closeCount, isClose]
      | true =>
        have hr := ih (some (m.id : Int))
        simp only [closeCount] at hr ⊢
        simp [runPending, hm, isClose, List.filter_cons, hr]
    | false =>
      cases hm : m.downOk with
      | false => simp [runPending, hm, closeCount, isClose]
      | true =>
        have hr := ih (some ((m.id : Int) - 1))
        simp only [closeCount] at hr ⊢
        simp [runPending, hm, isClose, List.filter_cons, hr]

/-- When every pending transform succeeds, the loop applies each
migration in order, writes the direction's ledger value after each, and
finishes with the ledger at the last pending migration's value. -/
theorem runPending_ok (isUp : Bool) (p : List Migration) (led : Option Int)
    (h : ∀ m ∈ p, transformOk isUp m = true) :
    (runPending isUp p led).2.2 = none ∧
    (runPending isUp p led).1 = (p.getLast?).elim led (fun m => some (stepVal isUp m)) ∧
    applyEvents (runPending isUp p led).2.1 = p.map (applyEv isUp) ∧
    applyWriteEvents (runPending isUp p led).2.1 =
      p.flatMap (fun m => [applyEv isUp m, Ev.writeLedger (stepVal isUp m)]) ∧
    ledgerWrites (runPending isUp p led).2.1 = p.map (stepVal isUp) := by
  induction p generalizing led with
  | nil => simp [runPending, applyEvents, applyWriteEvents, ledgerWrites]
  | cons m rest ih =>
    have hm : transformOk isUp m = true := h m (List.mem_cons_self m rest)
    have hrest : ∀ x ∈ rest, transformOk isUp x = true :=
      fun x hx => h x (List.mem_cons_of_mem m hx)
    rw [getLast?_elim_cons]
    cases isUp with
    | true =>
      have hup : m.upOk = true := by simpa [transformOk] using hm
      obtain ⟨ih1, ih2, ih3, ih4, ih5⟩ := ih (some (m.id : Int)) hrest
      refine ⟨?_, ?_, ?_, ?_, ?_⟩
      · simp [runPending, hup, ih1]
      · simpa [runPending, hup, stepVal] using ih2
      · simp [runPending, hup, applyEvents, isApplyEv, applyEv] at ih3 ⊢
        exact ih3
      · simp [runPending, hup, applyWriteEvents, isApplyOrWrite, applyEv, stepVal] at ih4 ⊢
        exact ih4
      · simp [runPending, hup, ledgerWrites, stepVal] at ih5 ⊢
        exact ih5
    | false =>
      have hdn : m.downOk = true := by simpa [transformOk] using hm
      obtain ⟨ih1, ih2, ih3, ih4, ih5⟩ := ih (some ((m.id : Int) - 1)) hrest
      refine ⟨?_, ?_, ?_, ?_, ?_⟩
      · simp [runPending, hdn, ih1]
      · simpa [runPending, hdn, stepVal] using ih2
      · simp [runPending, hdn, applyEvents, isApplyEv, applyEv] at ih3 ⊢
        exact ih3
      · simp [runPending, hdn, applyWriteEvents, isApplyOrWrite, applyEv, stepVal] at ih4 ⊢
        exact ih4
      · simp [runPending, hdn, ledgerWrites, stepVal] at ih5 ⊢
        exact ih5

/-- When the transforms of `good` succeed and `bad`'s throws, the loop
invokes exactly the transforms of `good` then `bad`, writes ledger
values only for `good`, leaves the ledger at the value written after
the last of `good`, and propagates `bad`'s error. -/
theorem runPending_fail (isUp : Bool) (good : List Migration) (bad : Migration)
    (rest : List Migration) (led : Option Int)
    (hg : ∀ m ∈ good, transformOk isUp m = true) (hb : transformOk isUp bad = false) :
    (runPending isUp (good ++ bad :: rest) led).2.2 =
      some (JsError.error ("transform error in " ++ bad.name)) ∧
    (runPending isUp (good ++ bad :: rest) led).1 =
      (good.getLast?).elim led (fun m => some (stepVal isUp m)) ∧
    applyEvents (runPending isUp (good ++ bad :: rest) led).2.1 =
      (good ++ [bad]).map (applyEv isUp) ∧
    ledgerWrites (runPending isUp (good ++ bad :: rest) led).2.1 =
      good.map (stepVal isUp) := by
  induction good generalizing led with
  | nil =>
    cases isUp with
    | true =>
      have hbu : bad.upOk = false := by simpa [transformOk] using hb
      simp [runPending, hbu, applyEvents, ledgerWrites, isApplyEv, applyEv]
    | false =>
      have hbd : bad.downOk = false := by simpa [transformOk] using hb
      simp [runPending, hbd, applyEvents, ledgerWrites, isApplyEv, applyEv]
  | cons m g ih =>
    have hm : transformOk isUp m = true := hg m (List.mem_cons_self m g)
    have hgrest : ∀ x ∈ g, transformOk isUp x = true :=
      fun x hx => hg x (List.mem_cons_of_mem m hx)
    rw [getLast?_elim_cons]
    cases isUp with
    | true =>
      have hup : m.upOk = true := by simpa [transformOk] using hm
      obtain ⟨ih1, ih2, ih3, ih4⟩ := ih (some (m.id : Int)) hgrest
      refine ⟨?_, ?_, ?_, ?_⟩
      · simp [runPending, hup, ih1]
      · simpa [runPending, hup, stepVal] using ih2
      · simp [runPending, hup, applyEvents, isApplyEv, applyEv] at ih3 ⊢
        exact ih3
      · simp [runPending, hup, ledgerWrites, stepVal] at ih4 ⊢
        exact ih4
    | false =>
      have hdn : m.downOk = true := by simpa [transformOk] using hm
      obtain ⟨ih1, ih2, ih3, ih4⟩ := ih (some ((m.id : Int) - 1)) hgrest
      refine ⟨?_, ?_, ?_, ?_⟩
      · simp [runPending, hdn, ih1]
      · simpa [runPending, hdn, stepVal] using ih2
      · simp [runPending, hdn, applyEvents, isApplyEv, applyEv] at ih3 ⊢
        exact ih3
      · simp [runPending, hdn, ledgerWrites, stepVal] at ih4 ⊢
        exact ih4

/-! ### Trace observer helpers -/

theorem applyEvents_append (l1 l2 : List Ev) :
    applyEvents (l1 ++ l2) = applyEvents l1 ++ applyEvents l2 := by
  simp [applyEvents, List.filter_append]

theorem applyWriteEvents_append (l1 l2 : List Ev) :
    applyWriteEvents (l1 ++ l2) = applyWriteEvents l1 ++ applyWriteEvents l2 := by
  simp [applyWriteEvents, List.filter_append]

theorem closeCount_append (l1 l2 : List Ev) :
    closeCount (l1 ++ l2) = closeCount l1 + closeCount l2 := by
  simp [closeCount, List.filter_append]

theorem ledgerWrites_append (l1 l2 : List Ev) :
    ledgerWrites (l1 ++ l2) = ledgerWrites l1 ++ ledgerWrites l2 := by
  induction l1 with
  | nil => rfl
  | cons e r ih => cases e <;> simp [ledgerWrites, ih]

theorem applyEvents_log_map {β : Type} (f : β → String) (l : List β) :
    applyEvents (l.map (fun x => Ev.log (f x))) = [] := by
  induction l with
  | nil => rfl
  | cons x r ih => simp [applyEvents, isApplyEv, ih]

theorem applyWriteEvents_log_map {β : Type} (f : β → String) (l : List β) :
    applyWriteEvents (l.map (fun x => Ev.log (f x))) = [] := by
  induction l with
  | nil => rfl
  | cons x r ih => simp [applyWriteEvents, isApplyOrWrite, ih]

theorem ledgerWrites_log_map {β : Type} (f : β → String) (l : List β) :
    ledgerWrites (l.map (fun x => Ev.log (f x))) = [] := by
  induction l with
  | nil => rfl
  | cons x r ih => simpa [ledgerWrites] using ih

theorem closeCount_log_map {β : Type} (f : β → String) (l : List β) :
    closeCount (l.map (fun x => Ev.log (f x))) = 0 := by
  induction l with
  | nil => rfl
  | cons x r ih => simp [closeCount, isClose, ih]

theorem applyEvents_map_nil {β : Type} (f : β → Ev) (l : List β)
    (h : ∀ x, isApplyEv (f x) = false) : applyEvents (l.map f) = [] := by
  induction l with
  | nil => rfl
  | cons x r ih =>
    simp only [applyEvents] at ih ⊢
    simp [List.filter_cons, h x, ih]

theorem ledgerWrites_cons (e : Ev) (t : List Ev) :
    ledgerWrites (e :: t) = ledgerWrites [e] ++ ledgerWrites t := by
  cases e <;> simp [ledgerWrites]

theorem ledgerWrites_map_nil {β : Type} (f : β → Ev) (l : List β)
    (h : ∀ x, ledgerWrites [f x] = []) : ledgerWrites (l.map f) = [] := by
  induction l with
  | nil => rfl
  | cons x r ih =>
    rw [List.map_cons, ledgerWrites_cons, h x, ih]
    rfl

theorem closeCount_map_zero {β : Type} (f : β → Ev) (l : List β)
    (h : ∀ x, isClose (f x) = false) : closeCount (l.map f) = 0 := by
  induction l with
  | nil => rfl
  | cons x r ih =>
    simp only [closeCount] at ih ⊢
    simp [List.filter_cons, h x, ih]

/-! ### Reductions of `main` -/

/-- With a successful load and a recognized direction, `main` is the
post-pending phase applied to the computed pending set. -/
theorem main_eq_afterPending (o : OptsArg) (units : List MigrationDef)
    (migs : List Migration) (led0 : Option Int)
    (hload : loadMigrations units = Except.ok migs)
    (hfunc : (assignOpts o).func = "up" ∨ (assignOpts o).func = "down") :
    main o units led0 = afterPending (assignOpts o)
      (pendingOf (assignOpts o).func (assignOpts o).version (led0.getD 0) migs)
      led0 [Ev.log ("current database version is " ++ toString (led0.getD 0))] := by
  unfold main
  rw [hload]
  dsimp only
  rcases hfunc with h | h <;> rw [h]
  · rw [if_pos rfl]
  · rw [if_neg (by decide), if_pos rfl]

theorem decide_up_up : decide (("up" : String) = "up") = true := by decide

theorem decide_down_up : decide (("down" : String) = "up") = false := by decide

theorem afterPending_dryRun (o : Opts) (p : List Migration) (led0 : Option Int)
    (tr0 : List Ev) (hdry : o.dryRun = true) :
    afterPending o p led0 tr0 =
      { ledger := led0
      , trace := tr0 ++ [Ev.log "dry run mode : the following migrations would be applied:"] ++
          p.map (fun m => Ev.log (" - " ++ m.name)) ++ [Ev.close]
      , err := none } := by
  unfold afterPending
  rw [hdry, if_pos rfl]

theorem afterPending_empty (o : Opts) (led0 : Option Int) (tr0 : List Ev)
    (hdry : o.dryRun = false) :
    afterPending o [] led0 tr0 =
      { ledger := led0
      , trace := tr0 ++ [Ev.log "already up to date : no migration to apply!", Ev.close]
      , err := none } := by
  unfold afterPending
  rw [hdry]
  simp

theorem afterPending_run (o : Opts) (p : List Migration) (led0 : Option Int)
    (tr0 : List Ev) (isUp : Bool)
    (hdry : o.dryRun = false) (hne : p ≠ [])
    (hdir : decide (o.func = "up") = isUp)
    {led : Option Int} {tr2 : List Ev} {err : Option JsError}
    (hrp : runPending isUp p led0 = (led, tr2, err)) :
    afterPending o p led0 tr0 =
      match err with
      | none =>
        { ledger := led
        , trace := (tr0 ++ [Ev.log "applying the following migrations:"]) ++ tr2 ++ [Ev.close]
        , err := none }
      | some e =>
        { ledger := led
        , trace := (tr0 ++ [Ev.log "applying the following migrations:"]) ++ tr2
        , err := some e } := by
  unfold afterPending
  rw [hdry]
  rw [if_neg (by simp)]
  rw [if_neg (by simpa [List.isEmpty_iff] using hne)]
  rw [hdir]
  cases err <;> simp only [hrp]

/-- A run whose pending transforms all succeed: no error, one transform
invocation and one ledger write per pending migration in computed
order, exactly one close, and the final marker at the last pending
migration's written value. -/
theorem main_run_ok (isUp : Bool) (o : OptsArg) (units : List MigrationDef)
    (migs : List Migration) (led0 : Option Int)
    (hload : loadMigrations units = Except.ok migs)
    (hfunc : (assignOpts o).func = (if isUp then "up" else "down"))
    (hdry : (assignOpts o).dryRun = false)
    (hok : ∀ m ∈ pendingOf (assignOpts o).func (assignOpts o).version (led0.getD 0) migs,
      transformOk isUp m = true) :
    (main o units led0).err = none ∧
    applyEvents (main o units led0).trace =
      (pendingOf (assignOpts o).func (assignOpts o).version (led0.getD 0) migs).map
        (applyEv isUp) ∧
    applyWriteEvents (main o units led0).trace =
      (pendingOf (assignOpts o).func (assignOpts o).version (led0.getD 0) migs).flatMap
        (fun m => [applyEv isUp m, Ev.writeLedger (stepVal isUp m)]) ∧
    ledgerWrites (main o units led0).trace =
      (pendingOf (assignOpts o).func (assignOpts o).version (led0.getD 0) migs).map
        (stepVal isUp) ∧
    closeCount (main o units led0).trace = 1 ∧
    (main o units led0).ledger =
      ((pendingOf (assignOpts o).func (assignOpts o).version (led0.getD 0) migs).getLast?).elim
        led0 (fun m => some (stepVal isUp m)) := by
  have hfo : (assignOpts o).func = "up" ∨ (assignOpts o).func = "down" := by
    cases isUp
    · exact Or.inr (by simpa using hfunc)
    · exact Or.inl (by simpa using hfunc)
  have hme := main_eq_afterPending o units migs led0 hload hfo
  set p := pendingOf (assignOpts o).func (assignOpts o).version (led0.getD 0) migs with hp
  by_cases hpe : p = []
  · rw [hme, hpe, afterPending_empty _ _ _ hdry]
    refine ⟨rfl, ?_, ?_, ?_, ?_, ?_⟩ <;>
      simp [applyEvents, applyWriteEvents, ledgerWrites, closeCount,
        isApplyEv, isApplyOrWrite, isClose]
  · have hdir : decide ((assignOpts o).func = "up") = isUp := by
      cases isUp
      · rw [show (assignOpts o).func = "down" from by simpa using hfunc]
        decide
      · rw [show (assignOpts o).func = "up" from by simpa using hfunc]
        decide
    rcases hrp : runPending isUp p led0 with ⟨led, tr2, err⟩
    obtain ⟨r1, r2, r3, r4, r5⟩ := runPending_ok isUp p led0 hok
    rw [hrp] at r1 r2 r3 r4 r5
    dsimp only at r1 r2 r3 r4 r5
    subst r1
    have hcc := closeCount_runPending isUp p led0
    rw [hrp] at hcc
    dsimp only at hcc
    rw [hme, afterPending_run _ _ _ _ isUp hdry hpe hdir hrp]
    dsimp only
    refine ⟨rfl, ?_, ?_, ?_, ?_, ?_⟩
    · rw [applyEvents_append, applyEvents_append, r3]
      simp [applyEvents, isApplyEv]
    · rw [applyWriteEvents_append, applyWriteEvents_append, r4]
      simp [applyWriteEvents, isApplyOrWrite]
    · rw [ledgerWrites_append, ledgerWrites_append, r5]
      simp [ledgerWrites]
    · rw [closeCount_append, closeCount_append, hcc]
      simp [closeCount, isClose]
    · exact r2

/-! ### Claim theorems -/

/-- C1, as stated, is false on the code: with the unrecognized
direction "left" the run propagates an error, and the connection opened
at the start of `main` is closed zero times, not once. -/
theorem C1_counterexample :
    (main { func := some "left" } [] (some 0)).err ≠ none ∧
    closeCount (main { func := some "left" } [] (some 0)).trace = 0 := by
  decide

/-- C1 (amended): the database connection is closed exactly once on
every *successful* exit path (dry-run early return, empty-pending early
return, normal completion), and is not closed at all — zero close
calls — whenever a failure propagates out of `main` (invalid direction,
load error, or a transform error thrown mid-iteration). -/
theorem C1_close_iff_success (o : OptsArg) (units : List MigrationDef) (led0 : Option Int) :
    closeCount (main o units led0).trace =
      if (main o units led0).err = none then 1 else 0 := by
  rcases hl : loadMigrations units with e | migs
  · unfold main
    rw [hl]
    simp [closeCount]
  · by_cases hfu : (assignOpts o).func = "up" ∨ (assignOpts o).func = "down"
    · rw [main_eq_afterPending o units migs led0 hl hfu]
      by_cases hdry : (assignOpts o).dryRun = true
      · rw [afterPending_dryRun _ _ _ _ hdry]
        simp [closeCount_append, closeCount, isClose, closeCount_log_map]
      · have hdf : (assignOpts o).dryRun = false := by
          simpa using hdry
        by_cases hpe :
            pendingOf (assignOpts o).func (assignOpts o).version (led0.getD 0) migs = []
        · rw [hpe, afterPending_empty _ _ _ hdf]
          simp [closeCount_append, closeCount, isClose]
        · rcases hrp : runPending (decide ((assignOpts o).func = "up"))
              (pendingOf (assignOpts o).func (assignOpts o).version (led0.getD 0) migs)
              led0 with ⟨led, tr2, err⟩
          have hcc := closeCount_runPending (decide ((assignOpts o).func = "up"))
            (pendingOf (assignOpts o).func (assignOpts o).version (led0.getD 0) migs) led0
          rw [hrp] at hcc
          dsimp only at hcc
          rw [afterPending_run _ _ _ _ _ hdf hpe rfl hrp]
          cases err with
          | none =>
            dsimp only
            simp only [closeCount_append, hcc]
            simp [closeCount, isClose]
          | some e =>
            dsimp only
            simp only [closeCount_append, hcc]
            simp [closeCount, isClose]
    · push_neg at hfu
      unfold main
      rw [hl]
      dsimp only
      rw [if_neg hfu.1, if_neg hfu.2]
      simp [closeCount, isClose]

/-- C2: a "down" run's pending set is exactly the loaded migrations
with id in (T, V], iterated in strictly descending id order; after each
successful `down` the marker is set to that migration's id minus one,
ending at (last pending id) - 1; concretely, from V = 3 with loaded ids
{1,2,3} and T = 1 the pending ids are [3, 2] and the final marker
is 1. -/
theorem C2_down_run (units : List MigrationDef) (migs : List Migration) (V T : Int)
    (hload : loadMigrations units = Except.ok migs)
    (hok : ∀ m ∈ migs, m.downOk = true) :
    (∀ m, m ∈ pendingOf "down" (JsOptNum.num T) V migs ↔
      (m ∈ migs ∧ T < (m.id : Int) ∧ (m.id : Int) ≤ V)) ∧
    (pendingOf "down" (JsOptNum.num T) V migs).Pairwise (fun a b => b.id < a.id) ∧
    (main { func := some "down", version := some (JsOptNum.num T) } units (some V)).err =
      none ∧
    applyWriteEvents
        (main { func := some "down", version := some (JsOptNum.num T) } units (some V)).trace =
      (pendingOf "down" (JsOptNum.num T) V migs).flatMap
        (fun m => [Ev.applyDown m.id, Ev.writeLedger ((m.id : Int) - 1)]) ∧
    (main { func := some "down", version := some (JsOptNum.num T) } units (some V)).ledger =
      ((pendingOf "down" (JsOptNum.num T) V migs).getLast?).elim (some V)
        (fun m => some ((m.id : Int) - 1)) ∧
    loadMigrations units123 = Except.ok migs123 ∧
    (pendingOf "down" (JsOptNum.num 1) 3 migs123).map (fun m => m.id) = [3, 2] ∧
    (main { func := some "down", version := some (JsOptNum.num 1) } units123 (some 3)).ledger =
      some 1 := by
  have hmem : ∀ m, m ∈ pendingOf "down" (JsOptNum.num T) V migs ↔
      (m ∈ migs ∧ T < (m.id : Int) ∧ (m.id : Int) ≤ V) := by
    intro m
    simp [pendingOf, lodashGet, jsGtNum, List.mem_reverse, List.mem_filter, and_assoc]
  have hok2 : ∀ m ∈ pendingOf "down" (JsOptNum.num T) V migs, transformOk false m = true := by
    intro m hm
    have := ((hmem m).mp hm).1
    simpa [transformOk] using hok m this
  obtain ⟨g1, g2, g3, g4, g5, g6⟩ :=
    main_run_ok false { func := some "down", version := some (JsOptNum.num T) }
      units migs (some V) hload rfl rfl hok2
  simp only [assignOpts, DEFAULT_OPTS, Option.getD_some, Option.getD_none] at g2 g3 g4 g6
  refine ⟨hmem, ?_, g1, ?_, ?_, by rfl, by rfl, by rfl⟩
  · have hs := loadMigrations_sorted hload
    simp only [pendingOf, if_neg (by decide : ¬("down" : String) = "up")]
    exact List.pairwise_reverse.mpr (hs.filter _)
  · rw [g3]
    simp [applyEv, stepVal]
  · rw [g6]
    simp [stepVal]

/-- C3: an "up" run (a missing marker read as version 0) has pending
set exactly the loaded migrations with id strictly above the current
version, iterated ascending; after each successful `up` the marker is
set to that migration's id, ending at the last pending id; concretely,
with no marker and loaded ids {1,2,3} the pending ids are [1,2,3] and
the final marker is 3. -/
theorem C3_up_run (units : List MigrationDef) (migs : List Migration) (led0 : Option Int)
    (hload : loadMigrations units = Except.ok migs)
    (hok : ∀ m ∈ migs, m.upOk = true) :
    (∀ m, m ∈ pendingOf "up" JsOptNum.null (led0.getD 0) migs ↔
      (m ∈ migs ∧ led0.getD 0 < (m.id : Int))) ∧
    (pendingOf "up" JsOptNum.null (led0.getD 0) migs).Pairwise (fun a b => a.id < b.id) ∧
    (main { func := some "up" } units led0).err = none ∧
    applyWriteEvents (main { func := some "up" } units led0).trace =
      (pendingOf "up" JsOptNum.null (led0.getD 0) migs).flatMap
        (fun m => [Ev.applyUp m.id, Ev.writeLedger (m.id : Int)]) ∧
    (main { func := some "up" } units led0).ledger =
      ((pendingOf "up" JsOptNum.null (led0.getD 0) migs).getLast?).elim led0
        (fun m => some (m.id : Int)) ∧
    loadMigrations units123 = Except.ok migs123 ∧
    (pendingOf "up" JsOptNum.null 0 migs123).map (fun m => m.id) = [1, 2, 3] ∧
    (main { func := some "up" } units123 none).ledger = some 3 := by
  have hmem : ∀ m, m ∈ pendingOf "up" JsOptNum.null (led0.getD 0) migs ↔
      (m ∈ migs ∧ led0.getD 0 < (m.id : Int)) := by
    intro m
    simp [pendingOf, List.mem_filter]
  have hok2 : ∀ m ∈ pendingOf "up" JsOptNum.null (led0.getD 0) migs,
      transformOk true m = true := by
    intro m hm
    have := ((hmem m).mp hm).1
    simpa [transformOk] using hok m this
  obtain ⟨g1, g2, g3, g4, g5, g6⟩ :=
    main_run_ok true { func := some "up" } units migs led0 hload rfl rfl hok2
  simp only [assignOpts, DEFAULT_OPTS, Option.getD_some, Option.getD_none] at g2 g3 g4 g6
  refine ⟨hmem, ?_, g1, ?_, ?_, by rfl, by rfl, by rfl⟩
  · have hs := loadMigrations_sorted hload
    simp only [pendingOf, if_pos rfl]
    exact hs.filter _
  · rw [g3]
    simp [applyEv, stepVal]
  · rw [g6]
    simp [stepVal]

/-- C5: a dry-run with a valid direction reports the pending
migrations' names in order, terminates without error, leaves the marker
unchanged, invokes no transform, writes no ledger value, and closes the
connection once. -/
theorem C5_dry_run_frame (o : OptsArg) (units : List MigrationDef) (migs : List Migration)
    (led0 : Option Int)
    (hload : loadMigrations units = Except.ok migs)
    (hfunc : (assignOpts o).func = "up" ∨ (assignOpts o).func = "down")
    (hdry : (assignOpts o).dryRun = true)
    (_hne : pendingOf (assignOpts o).func (assignOpts o).version (led0.getD 0) migs ≠ []) :
    main o units led0 =
      { ledger := led0
      , trace := [Ev.log ("current database version is " ++ toString (led0.getD 0)),
          Ev.log "dry run mode : the following migrations would be applied:"] ++
          (pendingOf (assignOpts o).func (assignOpts o).version (led0.getD 0) migs).map
            (fun m => Ev.log (" - " ++ m.name)) ++ [Ev.close]
      , err := none } ∧
    (main o units led0).ledger = led0 ∧
    (main o units led0).err = none ∧
    applyEvents (main o units led0).trace = [] ∧
    ledgerWrites (main o units led0).trace = [] ∧
    closeCount (main o units led0).trace = 1 := by
  have hme := main_eq_afterPending o units migs led0 hload hfunc
  rw [hme, afterPending_dryRun _ _ _ _ hdry]
  refine ⟨by simp, rfl, rfl, ?_, ?_, ?_⟩
  · simp only [applyEvents_append]
    rw [applyEvents_map_nil (fun m : Migration => Ev.log (" - " ++ m.name)) _
      (fun x => rfl)]
    simp [applyEvents, isApplyEv]
  · simp only [ledgerWrites_append]
    rw [ledgerWrites_map_nil (fun m : Migration => Ev.log (" - " ++ m.name)) _
      (fun x => rfl)]
    simp [ledgerWrites]
  · simp only [closeCount_append]
    rw [closeCount_map_zero (fun m : Migration => Ev.log (" - " ++ m.name)) _
      (fun x => rfl)]
    simp [closeCount, isClose]

/-- C9: invoked programmatically with func "down" and the version key
absent, the merged options hold the default `null`; `_.get` does not
replace `null` by the current version, the JS comparison reads `null`
as 0, so the pending set is every loaded migration with id in [1, V] —
the same set as an explicit target 0 — and the run reverts them all
without failing. -/
theorem C9_default_null_target (units : List MigrationDef) (migs : List Migration) (V : Int)
    (hload : loadMigrations units = Except.ok migs)
    (hok : ∀ m ∈ migs, m.downOk = true) :
    (assignOpts { func := some "down" }).version = JsOptNum.null ∧
    pendingOf "down" JsOptNum.null V migs = pendingOf "down" (JsOptNum.num 0) V migs ∧
    (∀ m, m ∈ pendingOf "down" JsOptNum.null V migs ↔
      (m ∈ migs ∧ 1 ≤ m.id ∧ (m.id : Int) ≤ V)) ∧
    (main { func := some "down" } units (some V)).err = none ∧
    applyEvents (main { func := some "down" } units (some V)).trace =
      (pendingOf "down" JsOptNum.null V migs).map (fun m => Ev.applyDown m.id) := by
  have hmem : ∀ m, m ∈ pendingOf "down" JsOptNum.null V migs ↔
      (m ∈ migs ∧ 1 ≤ m.id ∧ (m.id : Int) ≤ V) := by
    intro m
    simp [pendingOf, lodashGet, jsGtNum, List.mem_reverse, List.mem_filter, and_assoc,
      Int.natCast_pos, Nat.lt_iff_add_one_le]
  have hok2 : ∀ m ∈ pendingOf "down" JsOptNum.null V migs, transformOk false m = true := by
    intro m hm
    have := ((hmem m).mp hm).1
    simpa [transformOk] using hok m this
  obtain ⟨g1, g2, g3, g4, g5, g6⟩ :=
    main_run_ok false { func := some "down" } units migs (some V) hload rfl rfl hok2
  simp only [assignOpts, DEFAULT_OPTS, Option.getD_some, Option.getD_none] at g2
  refine ⟨rfl, rfl, hmem, g1, ?_⟩
  rw [g2]
  simp [applyEv]

/-- C8: when the first failing pending transform is reached, it is
invoked after exactly the earlier pending transforms (none later), the
error propagates out of `main`, and the marker keeps the value written
after the last successful migration of this run (or the initial value
when the first pending migration fails): no rollback. -/
theorem C8_transform_failure (isUp : Bool) (o : OptsArg) (units : List MigrationDef)
    (migs good rest : List Migration) (bad : Migration) (led0 : Option Int)
    (hload : loadMigrations units = Except.ok migs)
    (hfunc : (assignOpts o).func = (if isUp then "up" else "down"))
    (hdry : (assignOpts o).dryRun = false)
    (hpend : pendingOf (assignOpts o).func (assignOpts o).version (led0.getD 0) migs =
      good ++ bad :: rest)
    (hg : ∀ m ∈ good, transformOk isUp m = true)
    (hb : transformOk isUp bad = false) :
    (main o units led0).err = some (JsError.error ("transform error in " ++ bad.name)) ∧
    applyEvents (main o units led0).trace = (good ++ [bad]).map (applyEv isUp) ∧
    ledgerWrites (main o units led0).trace = good.map (stepVal isUp) ∧
    (main o units led0).ledger = (good.getLast?).elim led0 (fun m => some (stepVal isUp m)) := by
  have hfo : (assignOpts o).func = "up" ∨ (assignOpts o).func = "down" := by
    cases isUp
    · exact Or.inr (by simpa using hfunc)
    · exact Or.inl (by simpa using hfunc)
  have hme := main_eq_afterPending o units migs led0 hload hfo
  have hdir : decide ((assignOpts o).func = "up") = isUp := by
    cases isUp
    · rw [show (assignOpts o).func = "down" from by simpa using hfunc]
      decide
    · rw [show (assignOpts o).func = "up" from by simpa using hfunc]
      decide
  have hne : pendingOf (assignOpts o).func (assignOpts o).version (led0.getD 0) migs ≠ [] := by
    rw [hpend]
    simp
  rcases hrp : runPending isUp (good ++ bad :: rest) led0 with ⟨led, tr2, err⟩
  obtain ⟨r1, r2, r3, r4⟩ := runPending_fail isUp good bad rest led0 hg hb
  rw [hrp] at r1 r2 r3 r4
  dsimp only at r1 r2 r3 r4
  subst r1
  have hrp2 : runPending isUp
      (pendingOf (assignOpts o).func (assignOpts o).version (led0.getD 0) migs) led0 =
      (led, tr2, some (JsError.error ("transform error in " ++ bad.name))) := by
    rw [hpend]
    exact hrp
  rw [hme, afterPending_run _ _ _ _ isUp hdry hne hdir hrp2]
  dsimp only
  refine ⟨rfl, ?_, ?_, r2⟩
  · rw [applyEvents_append, r3]
    simp [applyEvents, isApplyEv]
  · rw [ledgerWrites_append, r4]
    simp [ledgerWrites]

/-- C4: the code is wrong and the claim matches the intent: on a unit
named without a leading digit, `name.match(...)` is `null` and indexing
it throws a `TypeError` first, so the `missing id` (MissingIdentifier)
guard on the next line can never fire — `extractMigId` can only error
with a `TypeError`.  The load still fails before anything runs: the run
propagates the error with no transform invoked, no ledger write, and
the marker untouched. -/
theorem C4_missing_identifier :
    loadMigrations [unitNoDigit] =
      Except.error (JsError.typeError "Cannot read property 1 of null") ∧
    (∀ name e, extractMigId name = Except.error e → ∃ msg, e = JsError.typeError msg) ∧
    (main { func := some "up" } [unitNoDigit] none).err =
      some (JsError.typeError "Cannot read property 1 of null") ∧
    applyEvents (main { func := some "up" } [unitNoDigit] none).trace = [] ∧
    ledgerWrites (main { func := some "up" } [unitNoDigit] none).trace = [] ∧
    (main { func := some "up" } [unitNoDigit] none).ledger = none := by
  refine ⟨by rfl, ?_, by rfl, by rfl, by rfl, by rfl⟩
  intro name e h
  unfold extractMigId at h
  by_cases hm : (name.data.takeWhile Char.isDigit).isEmpty
  · rw [if_pos hm] at h
    injection h with h2
    exact ⟨_, h2.symm⟩
  · rw [if_neg hm, if_neg hm] at h
    exact absurd h (by simp)

/-- C6, as stated, is false on the code: with loaded ids {2, 3} (no
id-1 migration), "up" from an absent marker reaches 3, but "down" to
target 0 ends with the marker at 2 - 1 = 1, not 0. -/
theorem C6_counterexample :
    (main { func := some "up" } units23 none).ledger = some 3 ∧
    (main { func := some "down", version := some (JsOptNum.num 0) } units23 (some 3)).ledger =
      some 1 ∧
    some (1 : Int) ≠ some (0 : Int) := by
  exact ⟨by rfl, by rfl, by decide⟩

/-- C6 (amended): for a non-empty loaded set whose ids are all ≥ 1
(an id-0 migration would never be pending in either direction), running
"up" from an absent marker and then "down" with target 0 invokes every
migration's `down` exactly once, in strictly descending id order, and
leaves the marker at (minimum id - 1) — which is 0 exactly when the
smallest id is 1. -/
theorem C6_round_trip (units : List MigrationDef) (migs : List Migration)
    (hload : loadMigrations units = Except.ok migs) (hne : migs ≠ [])
    (hok : ∀ m ∈ migs, m.upOk = true ∧ m.downOk = true)
    (hids : ∀ m ∈ migs, 1 ≤ m.id) :
    (main { func := some "up" } units none).err = none ∧
    (main { func := some "up" } units none).ledger =
      (migs.getLast?).elim none (fun m => some (m.id : Int)) ∧
    (main { func := some "down", version := some (JsOptNum.num 0) } units
        (main { func := some "up" } units none).ledger).err = none ∧
    applyEvents (main { func := some "down", version := some (JsOptNum.num 0) } units
        (main { func := some "up" } units none).ledger).trace =
      migs.reverse.map (fun m => Ev.applyDown m.id) ∧
    migs.reverse.Pairwise (fun a b => b.id < a.id) ∧
    (main { func := some "down", version := some (JsOptNum.num 0) } units
        (main { func := some "up" } units none).ledger).ledger =
      (migs.head?).elim none (fun m => some ((m.id : Int) - 1)) ∧
    (∀ m0, migs.head? = some m0 →
      ((main { func := some "down", version := some (JsOptNum.num 0) } units
          (main { func := some "up" } units none).ledger).ledger = some 0 ↔ m0.id = 1)) := by
  have hs := loadMigrations_sorted hload
  obtain ⟨g, hg⟩ : ∃ g, migs.getLast? = some g := by
    cases migs with
    | nil => exact absurd rfl hne
    | cons a r =>
      exact ⟨(a :: r).getLast (by simp),
        List.getLast?_eq_getLast_of_ne_nil (by simp)⟩
  obtain ⟨m0, hm0⟩ : ∃ m0, migs.head? = some m0 := by
    cases migs with
    | nil => exact absurd rfl hne
    | cons a r => exact ⟨a, rfl⟩
  -- the "up" phase
  have hpu : pendingOf "up" JsOptNum.null ((none : Option Int).getD 0) migs = migs := by
    have he : pendingOf "up" JsOptNum.null ((none : Option Int).getD 0) migs =
        migs.filter (fun m => decide ((0 : Int) < (m.id : Int))) := rfl
    rw [he, List.filter_eq_self]
    intro a ha
    have := hids a ha
    simp only [decide_eq_true_eq]
    exact_mod_cast Nat.lt_of_lt_of_le Nat.zero_lt_one this
  have hoku : ∀ m ∈ pendingOf "up" JsOptNum.null ((none : Option Int).getD 0) migs,
      transformOk true m = true := by
    intro m hm
    rw [hpu] at hm
    simpa [transformOk] using (hok m hm).1
  obtain ⟨u1, u2, u3, u4, u5, u6⟩ :=
    main_run_ok true { func := some "up" } units migs none hload rfl rfl hoku
  simp only [assignOpts, DEFAULT_OPTS, Option.getD_some, Option.getD_none] at u6
  simp only [Option.getD_none] at hpu
  rw [hpu] at u6
  have hled1 : (main { func := some "up" } units none).ledger = some (g.id : Int) := by
    rw [u6, hg]
    simp [stepVal]
  have hled1g : (main { func := some "up" } units none).ledger =
      (migs.getLast?).elim none (fun m => some (m.id : Int)) := by
    rw [hled1, hg]
    simp
  -- the "down" phase
  have hpd : pendingOf "down" (JsOptNum.num 0) (((some (g.id : Int)) : Option Int).getD 0) migs =
      migs.reverse := by
    have he : pendingOf "down" (JsOptNum.num 0)
        (((some (g.id : Int)) : Option Int).getD 0) migs =
        (migs.filter (fun m => jsGtNum (m.id : Int) (JsOptNum.num 0) &&
          decide ((m.id : Int) ≤ (g.id : Int)))).reverse := rfl
    rw [he]
    congr 1
    rw [List.filter_eq_self]
    intro a ha
    have h1 := hids a ha
    have h2 := le_getLast_of_sorted hs ha hg
    simp only [jsGtNum, Bool.and_eq_true, decide_eq_true_eq]
    constructor
    · exact_mod_cast Nat.lt_of_lt_of_le Nat.zero_lt_one h1
    · exact_mod_cast h2
  have hokd : ∀ m ∈ pendingOf "down" (JsOptNum.num 0)
      (((some (g.id : Int)) : Option Int).getD 0) migs, transformOk false m = true := by
    intro m hm
    rw [hpd, List.mem_reverse] at hm
    simpa [transformOk] using (hok m hm).2
  obtain ⟨d1, d2, d3, d4, d5, d6⟩ :=
    main_run_ok false { func := some "down", version := some (JsOptNum.num 0) }
      units migs (some (g.id : Int)) hload rfl rfl hokd
  simp only [assignOpts, DEFAULT_OPTS, Option.getD_some, Option.getD_none] at d2 d6
  simp only [Option.getD_some] at hpd
  rw [hpd] at d2 d6
  have hdl : (main { func := some "down", version := some (JsOptNum.num 0) } units
      (some (g.id : Int))).ledger = some ((m0.id : Int) - 1) := by
    rw [d6, List.getLast?_reverse, hm0]
    simp [stepVal]
  rw [← hled1] at d1 d2 hdl
  refine ⟨u1, hled1g, d1, ?_, ?_, ?_, ?_⟩
  · rw [d2]
    simp [applyEv]
  · exact List.pairwise_reverse.mpr hs
  · rw [hdl, hm0]
    simp
  · intro m0' hm0'
    rw [hm0'] at hm0
    injection hm0 with hm0e
    subst hm0e
    rw [hdl]
    constructor
    · intro hh
      injection hh with hh2
      omega
    · intro hh
      rw [hh]
      simp

/-! ### Batch updater lemmas -/

theorem updateOneReplace_length (ds : List Doc) (nd : Doc) :
    (updateOneReplace ds nd).length = ds.length := by
  induction ds with
  | nil => rfl
  | cons d ds ih =>
    by_cases h : d._id = nd._id <;> simp [updateOneReplace, h, ih]

theorem foldl_updateOneReplace_length (nds : List Doc) (col : List Doc) :
    (nds.foldl updateOneReplace col).length = col.length := by
  induction nds generalizing col with
  | nil => rfl
  | cons nd nds ih => simp [List.foldl_cons, ih, updateOneReplace_length]

theorem fetchSizes1000_zero : fetchSizes1000 0 = [0] := by
  rw [fetchSizes1000]

theorem fetchSizes1000_succ (n : Nat) :
    fetchSizes1000 (n + 1) = min 1000 (n + 1) :: fetchSizes1000 (n + 1 - 1000) := by
  rw [fetchSizes1000]

theorem fetchSizes1000_getLast (n : Nat) : (fetchSizes1000 n).getLast? = some 0 := by
  induction n using Nat.strong_induction_on with
  | _ n ih =>
    match n with
    | 0 => rw [fetchSizes1000_zero]; rfl
    | Nat.succ m =>
      rw [fetchSizes1000_succ]
      have htail := ih (m + 1 - 1000) (by omega)
      cases hfs : fetchSizes1000 (m + 1 - 1000) with
      | nil => rw [hfs] at htail; simp at htail
      | cons a t =>
        rw [hfs] at htail
        rw [List.getLast?_cons_cons]
        exact htail

theorem fetchEvents_append_applies (ds : List Doc) (l : List UEv) :
    fetchEvents (ds.map UEv.applyUpd ++ l) = fetchEvents l := by
  induction ds with
  | nil => rfl
  | cons d ds ih => simpa [fetchEvents] using ih

theorem fetchEvents_append_writes (ds : List Doc) (l : List UEv) :
    fetchEvents (ds.map UEv.writeBack ++ l) = fetchEvents l := by
  induction ds with
  | nil => rfl
  | cons d ds ih => simpa [fetchEvents] using ih

theorem writeCount_append (l1 l2 : List UEv) :
    writeCount (l1 ++ l2) = writeCount l1 + writeCount l2 := by
  simp [writeCount, List.filter_append]

theorem writeCount_applies (ds : List Doc) : writeCount (ds.map UEv.applyUpd) = 0 := by
  induction ds with
  | nil => rfl
  | cons d ds ih =>
    simp only [writeCount] at ih ⊢
    simp [List.filter_cons, isWriteBack, ih]

theorem writeCount_writes (ds : List Doc) : writeCount (ds.map UEv.writeBack) = ds.length := by
  induction ds with
  | nil => rfl
  | cons d ds ih =>
    simp only [writeCount] at ih ⊢
    simp [List.filter_cons, isWriteBack, ih]

theorem writeCount_fetch_cons (s : Nat) (l : List UEv) :
    writeCount (UEv.fetch s :: l) = writeCount l := by
  simp [writeCount, List.filter_cons, isWriteBack]

theorem naw_applies (ds : List Doc) (l : List UEv) :
    noApplyAfterWrite false (ds.map UEv.applyUpd ++ l) = noApplyAfterWrite false l := by
  induction ds with
  | nil => rfl
  | cons d ds ih => simpa [noApplyAfterWrite] using ih

theorem naw_writes (ds : List Doc) (l : List UEv)
    (h : ∀ b, noApplyAfterWrite b l = true) :
    ∀ b, noApplyAfterWrite b (ds.map UEv.writeBack ++ l) = true := by
  induction ds with
  | nil => intro b; exact h b
  | cons d ds ih =>
    intro b
    simp only [List.map_cons, List.cons_append, noApplyAfterWrite]
    exact ih true

/-- Unfolding of one non-empty iteration of the updater loop. -/
theorem updateCollectionAux_step (u : Doc → Doc) (fuel idx : Nat) (col : List Doc)
    (he : ¬((col.drop (idx * 1000)).take 1000).isEmpty = true) :
    updateCollectionAux u (Nat.succ fuel) idx col =
      ((updateCollectionAux u fuel (idx + 1)
          ((((col.drop (idx * 1000)).take 1000).map u).foldl updateOneReplace col)).1,
       UEv.fetch ((col.drop (idx * 1000)).take 1000).length ::
         (((col.drop (idx * 1000)).take 1000).map UEv.applyUpd ++
          (((col.drop (idx * 1000)).take 1000).map u).map UEv.writeBack ++
          (updateCollectionAux u fuel (idx + 1)
            ((((col.drop (idx * 1000)).take 1000).map u).foldl updateOneReplace col)).2.1),
       (updateCollectionAux u fuel (idx + 1)
         ((((col.drop (idx * 1000)).take 1000).map u).foldl updateOneReplace col)).2.2) := by
  simp only [updateCollectionAux]
  rw [if_neg he]

/-- Every trace the updater loop produces keeps all of a page's updater
applications before that page's write-backs. -/
theorem naw_updateCollectionAux (u : Doc → Doc) :
    ∀ (fuel idx : Nat) (col : List Doc) (b : Bool),
      noApplyAfterWrite b (updateCollectionAux u fuel idx col).2.1 = true := by
  intro fuel
  induction fuel with
  | zero => intro idx col b; rfl
  | succ fuel ih =>
    intro idx col b
    by_cases he : ((col.drop (idx * 1000)).take 1000).isEmpty
    · simp [updateCollectionAux, he, noApplyAfterWrite]
    · rw [updateCollectionAux_step u fuel idx col he]
      show noApplyAfterWrite false _ = true
      rw [List.append_assoc, naw_applies]
      exact naw_writes _ _ (fun b2 => ih (idx + 1) _ b2) false

/-- Page sizes, write-back count and clean termination of the updater
loop, for any fuel at least the number of pages plus one. -/
theorem updateCollectionAux_spec (u : Doc → Doc) :
    ∀ (fuel idx : Nat) (col : List Doc),
      (col.length - idx * 1000 + 999) / 1000 + 1 ≤ fuel →
      (updateCollectionAux u fuel idx col).2.2 = true ∧
      fetchEvents (updateCollectionAux u fuel idx col).2.1 =
        fetchSizes1000 (col.length - idx * 1000) ∧
      writeCount (updateCollectionAux u fuel idx col).2.1 = col.length - idx * 1000 := by
  intro fuel
  induction fuel with
  | zero => intro idx col h; omega
  | succ fuel ih =>
    intro idx col h
    have hdl : ((col.drop (idx * 1000)).take 1000).length =
        min 1000 (col.length - idx * 1000) := by
      simp
    by_cases he : ((col.drop (idx * 1000)).take 1000).isEmpty
    · have hdocs : (col.drop (idx * 1000)).take 1000 = [] := List.isEmpty_iff.mp he
      have h0 : col.length - idx * 1000 = 0 := by
        rw [hdocs] at hdl
        simp at hdl
        omega
      rw [h0]
      refine ⟨?_, ?_, ?_⟩ <;>
        simp [updateCollectionAux, he, hdocs, fetchEvents, writeCount, isWriteBack,
          List.filter_cons, fetchSizes1000_zero]
    · have hlen : 0 < col.length - idx * 1000 := by
        by_contra hc
        push_neg at hc
        have hz : ((col.drop (idx * 1000)).take 1000).length = 0 := by
          rw [hdl]
          omega
        rw [List.length_eq_zero] at hz
        exact he (by simp [hz])
      have hc2 : ((((col.drop (idx * 1000)).take 1000).map u).foldl updateOneReplace
          col).length = col.length := foldl_updateOneReplace_length _ _
      have hfuel : (((((col.drop (idx * 1000)).take 1000).map u).foldl updateOneReplace
          col).length - (idx + 1) * 1000 + 999) / 1000 + 1 ≤ fuel := by
        rw [hc2]
        omega
      obtain ⟨f1, f2, f3⟩ := ih (idx + 1) _ hfuel
      rw [hc2] at f2 f3
      rw [updateCollectionAux_step u fuel idx col he]
      dsimp only
      obtain ⟨n, hn⟩ : ∃ n, col.length - idx * 1000 = n + 1 :=
        ⟨col.length - idx * 1000 - 1, by omega⟩
      have heq : n + 1 - 1000 = col.length - (idx + 1) * 1000 := by omega
      refine ⟨f1, ?_, ?_⟩
      · show ((col.drop (idx * 1000)).take 1000).length ::
            fetchEvents (((col.drop (idx * 1000)).take 1000).map UEv.applyUpd ++
              (((col.drop (idx * 1000)).take 1000).map u).map UEv.writeBack ++
              (updateCollectionAux u fuel (idx + 1)
                ((((col.drop (idx * 1000)).take 1000).map u).foldl updateOneReplace
                  col)).2.1) = _
        rw [List.append_assoc, fetchEvents_append_applies, fetchEvents_append_writes, f2, hn,
          fetchSizes1000_succ, heq, hdl, hn]
      · rw [writeCount_fetch_cons, writeCount_append, writeCount_append,
          writeCount_applies, writeCount_writes, f3]
        simp only [List.length_map, hdl]
        omega

/-- C7: `updateCollection` pages with skip/limit 1000 at ascending page
index over a size-stable collection: the fetched page sizes are exactly
`fetchSizes1000 n` (full 1000-pages, a final partial page, then the
empty fetch that ends the loop), the loop exits through its empty-page
test, one write-back is issued per fetched document, and within every
page all updater applications precede all write-backs; a 2500-document
collection gives fetches of 1000, 1000, 500 and a fourth empty
fetch. -/
theorem C7_updateCollection (u : Doc → Doc) (col : List Doc) :
    (updateCollection u col).2.2 = true ∧
    fetchEvents (updateCollection u col).2.1 = fetchSizes1000 col.length ∧
    writeCount (updateCollection u col).2.1 = col.length ∧
    noApplyAfterWrite false (updateCollection u col).2.1 = true ∧
    (fetchSizes1000 col.length).getLast? = some 0 ∧
    fetchSizes1000 2500 = [1000, 1000, 500, 0] := by
  obtain ⟨f1, f2, f3⟩ := updateCollectionAux_spec u (col.length / 1000 + 2) 0 col (by omega)
  have hz : col.length - 0 * 1000 = col.length := by omega
  rw [hz] at f2 f3
  exact ⟨f1, f2, f3, naw_updateCollectionAux u _ 0 col false,
    fetchSizes1000_getLast col.length, by simp [fetchSizes1000]⟩

/-- C10: each write-back of `updateCollection` filters on the `_id` of
the document the updater *returned* (`updateOne({_id: doc._id}, doc)`
over `newDocs`), not the fetched document's `_id`; so when the returned
`_id` differs from the fetched document's, that write-back leaves the
originally fetched stored document unchanged — concretely, an updater
that shifts `_id` leaves a one-document collection identical after the
run. -/
theorem C10_writeback_matches_returned_id (docs : List Doc) (nd d : Doc) (i : Nat)
    (hd : docs[i]? = some d) (hne : d._id ≠ nd._id) :
    (updateOneReplace docs nd)[i]? = some d ∧
    (updateCollection updShift [⟨1, 10⟩]).1 = [⟨1, 10⟩] := by
  refine ⟨?_, by rfl⟩
  induction docs generalizing i with
  | nil => simp at hd
  | cons x xs ih =>
    cases i with
    | zero =>
      simp only [List.getElem?_cons_zero, Option.some.injEq] at hd
      subst hd
      simp [updateOneReplace, hne]
    | succ j =>
      simp only [List.getElem?_cons_succ] at hd
      by_cases hx : x._id = nd._id
      · simp only [updateOneReplace, if_pos hx, List.getElem?_cons_succ]
        exact hd
      · simp only [updateOneReplace, if_neg hx, List.getElem?_cons_succ]
        exact ih j hd

/-! ### Witnesses -/

theorem C2_witness :
    (main { func := some "down", version := some (JsOptNum.num 1) } units123 (some 3)).err =
      none :=
  (C2_down_run units123 migs123 3 1 (by rfl) (by decide)).2.2.1

theorem C3_witness :
    (main { func := some "up" } units123 none).err = none :=
  (C3_up_run units123 migs123 none (by rfl) (by decide)).2.2.1

theorem C5_witness :
    (main { func := some "up", dryRun := some true } units123 (some 1)).ledger = some 1 :=
  (C5_dry_run_frame { func := some "up", dryRun := some true } units123 migs123 (some 1)
    (by rfl) (Or.inl rfl) rfl (by decide)).2.1

theorem C6_witness :
    (main { func := some "down", version := some (JsOptNum.num 0) } units123
        (main { func := some "up" } units123 none).ledger).ledger =
      (migs123.head?).elim none (fun m => some ((m.id : Int) - 1)) :=
  (C6_round_trip units123 migs123 (by rfl) (by decide) (by decide)
    (by decide)).2.2.2.2.2.1

theorem C8_witness :
    (main { func := some "up" } unitsFail2 none).ledger = some 1 :=
  (C8_transform_failure true { func := some "up" } unitsFail2
    [⟨"1-a", 1, true, true⟩, ⟨"2-b", 2, false, true⟩, ⟨"3-c", 3, true, true⟩]
    [⟨"1-a", 1, true, true⟩] [⟨"3-c", 3, true, true⟩] ⟨"2-b", 2, false, true⟩ none
    (by rfl) rfl rfl (by rfl) (by decide) (by rfl)).2.2.2.trans (by decide)

theorem C9_witness :
    (main { func := some "down" } units123 (some 3)).err = none :=
  (C9_default_null_target units123 migs123 3 (by rfl) (by decide)).2.2.2.1

theorem C10_witness :
    (updateOneReplace [(⟨1, 10⟩ : Doc), ⟨2, 20⟩] ⟨5, 0⟩)[0]? = some (⟨1, 10⟩ : Doc) ∧
    (updateCollection updShift [⟨1, 10⟩]).1 = [⟨1, 10⟩] :=
  C10_writeback_matches_returned_id [⟨1, 10⟩, ⟨2, 20⟩] ⟨5, 0⟩ ⟨1, 10⟩ 0 (by rfl) (by decide)

end MigrateJs
